import Mathlib

/-!
Verification of the fastuuid UUID generator.

The Go source (`uuid.go`) is shallowly embedded: the `Generator` struct
becomes a Lean structure, byte arrays become `List Nat` whose entries are
byte values, `binary.LittleEndian.Uint64` / `PutUint64` become `uint64LE`
and `putUint64LE`, and the fallible constructor's `(*Generator, error)`
return value becomes a pair of options.  The atomic counter increment of
`Next` is modelled as a sequential state transition (one call at a time),
which is the setting of the sequential claims.
-/

namespace Fastuuid

/-- `2^64`, the wraparound modulus of Go's `uint64` counter. -/
def U64 : Nat := 2 ^ 64

/-- Embeds `binary.LittleEndian.Uint64`: read a list of bytes (least
significant first) as an unsigned integer.  In the source it is always
applied to an 8-byte slice. -/
def uint64LE (bs : List Nat) : Nat :=
  bs.foldr (fun b acc => b + 256 * acc) 0

/-- Byte `i` of the little-endian encoding of `x`. -/
def leByte (x i : Nat) : Nat := x / 256 ^ i % 256

/-- Embeds `binary.LittleEndian.PutUint64`: the 8 little-endian bytes
of `x` (taken modulo `2^64`). -/
def putUint64LE (x : Nat) : List Nat :=
  (List.range 8).map (leByte x)

/-- Embeds the Go struct
`type Generator struct { seed [24]byte; counter uint64 }`.
Bytes are `Nat`s; well-formed states have `seed.length = 24`,
each seed entry `< 256` and `counter < 2^64`. -/
structure Generator where
  seed : List Nat
  counter : Nat
  deriving DecidableEq, Repr

/-- Embeds `Next`:
`x := atomic.AddUint64(&g.counter, 1); uuid := g.seed;`
`binary.LittleEndian.PutUint64(uuid[:8], x); return uuid`.
Returns the updated generator state together with the returned UUID. -/
def Generator.next (g : Generator) : Generator × List Nat :=
  let x := (g.counter + 1) % U64
  ({ seed := g.seed, counter := x }, putUint64LE x ++ g.seed.drop 8)

/-- Embeds `NewGenerator`.  The `crypto/rand` read is modelled as an
explicit outcome: either an error string or the 24 bytes drawn.  The Go
return value `(*Generator, error)` is modelled as a pair of options so
that the nil-pointer/nil-error cross conditions are expressible. -/
def NewGenerator (read : Except String (List Nat)) :
    Option Generator × Option String :=
  match read with
  | .error e => (none, some ("cannot generate random seed: " ++ e))
  | .ok seed => (some { seed := seed, counter := uint64LE (seed.take 8) }, none)

/-- Outcome of `MustNewGenerator`: it either returns the (possibly nil)
generator pointer or panics with the error. -/
inductive MustResult where
  | returned : Option Generator → MustResult
  | panicked : String → MustResult
  deriving DecidableEq

/-- Embeds `MustNewGenerator`:
`g, err := NewGenerator(); if err != nil { panic(err) }; return g`. -/
def MustNewGenerator (read : Except String (List Nat)) : MustResult :=
  match NewGenerator read with
  | (g, err) =>
    match err with
    | some e => .panicked e
    | none => .returned g

/-- Generator state after `n` sequential `Next` calls. -/
def Generator.afterCalls (g : Generator) : Nat → Generator
  | 0 => g
  | n + 1 => (Generator.afterCalls g n).next.1

/-- The UUID returned by the `(n+1)`-th sequential `Next` call
(0-indexed: `nthOutput g 0` is the first call's result). -/
def Generator.nthOutput (g : Generator) (n : Nat) : List Nat :=
  (g.afterCalls n).next.2

/-- The leading-8-byte value of the `(n+1)`-th output, read as a
little-endian 64-bit integer. -/
def Generator.leadVal (g : Generator) (n : Nat) : Nat :=
  uint64LE ((g.nthOutput n).take 8)

/-- A lowercase hexadecimal digit character for a nibble `n < 16`:
`0`–`9` for values below ten, `a`–`f` otherwise. -/
def hexDigit (n : Nat) : Char :=
  if n < 10 then Char.ofNat (48 + n) else Char.ofNat (87 + n)

/-- The two lowercase hex characters of a byte, most significant
nibble first. -/
def byteHex (b : Nat) : List Char :=
  [hexDigit (b / 16 % 16), hexDigit (b % 16)]

/-- Byte `i` of a UUID given as a byte list (0 when out of range;
all uses are in range for a 24-byte identifier). -/
def byteAt (u : List Nat) (i : Nat) : Nat := u.getD i 0

/-- Modelled from the spec: the `Hex128` renderer's implementation is not
part of the embedded source (only its tests and documentation are).  Per
the spec it is a pure function from a 24-byte identifier to a 36-character
string of lowercase hex digits in 8-4-4-4-12 groups formed from the first
16 bytes, with two fixed nibble substitutions (`4` and `8`) at the
conventional version/variant positions (string indices 14 and 19); per the
repository's own test, byte 6 is swapped with byte 9 before grouping, which
reproduces the test's expected output exactly. -/
def Hex128 (uuid : List Nat) : String :=
  let b := fun i =>
    if i = 6 then byteAt uuid 9
    else if i = 9 then byteAt uuid 6
    else byteAt uuid i
  let chars :=
    byteHex (b 0) ++ byteHex (b 1) ++ byteHex (b 2) ++ byteHex (b 3) ++ ['-'] ++
    byteHex (b 4) ++ byteHex (b 5) ++ ['-'] ++
    byteHex (b 6) ++ byteHex (b 7) ++ ['-'] ++
    byteHex (b 8) ++ byteHex (b 9) ++ ['-'] ++
    byteHex (b 10) ++ byteHex (b 11) ++ byteHex (b 12) ++ byteHex (b 13) ++
    byteHex (b 14) ++ byteHex (b 15)
  String.mk ((chars.set 14 '4').set 19 '8')

/-- Whether a character is a lowercase hexadecimal digit
(`0`–`9` or `a`–`f`). -/
def isLowerHexDigit (c : Char) : Bool :=
  (decide (48 ≤ c.toNat) && decide (c.toNat ≤ 57))
    || (decide (97 ≤ c.toNat) && decide (c.toNat ≤ 102))

/-- Modelled from the spec: the `ValidHex128` validator's implementation is
not part of the embedded source (only its tests and documentation are).
Per the spec it returns true iff the string is exactly 36 characters with
literal hyphens at the four fixed separator positions of the 8-4-4-4-12
grouping (indices 8, 13, 18, 23) and a lowercase hex digit everywhere
else. -/
def ValidHex128 (id : String) : Bool :=
  (id.length == 36) &&
    (List.range 36).all (fun i =>
      if i == 8 || i == 13 || i == 18 || i == 23 then id.data.getD i ' ' == '-'
      else isLowerHexDigit (id.data.getD i ' '))

/- ## Supporting lemmas -/

theorem putUint64LE_length (x : Nat) : (putUint64LE x).length = 8 := by
  simp [putUint64LE]

theorem uint64LE_putUint64LE (x : Nat) :
    uint64LE (putUint64LE x) = x % U64 := by
  simp only [putUint64LE, List.range_succ, List.range_zero, List.nil_append,
    List.map_append, List.map_cons, List.map_nil, uint64LE, List.foldr_append,
    List.foldr_cons, List.foldr_nil, leByte, U64]
  norm_num
  omega

theorem putUint64LE_mod (x : Nat) :
    putUint64LE (x % U64) = putUint64LE x := by
  simp only [putUint64LE, U64]
  apply List.map_congr_left
  intro i hi
  simp only [List.mem_range] at hi
  simp only [leByte]
  interval_cases i <;> omega

theorem putUint64LE_inj {x y : Nat} (hx : x < U64) (hy : y < U64)
    (h : putUint64LE x = putUint64LE y) : x = y := by
  have := congrArg uint64LE h
  rwa [uint64LE_putUint64LE, uint64LE_putUint64LE,
    Nat.mod_eq_of_lt hx, Nat.mod_eq_of_lt hy] at this

theorem next_fst_seed (g : Generator) : g.next.1.seed = g.seed := rfl

theorem next_fst_counter (g : Generator) :
    g.next.1.counter = (g.counter + 1) % U64 := rfl

theorem afterCalls_seed (g : Generator) (n : Nat) :
    (g.afterCalls n).seed = g.seed := by
  induction n with
  | zero => rfl
  | succ n ih => simp [Generator.afterCalls, next_fst_seed, ih]

theorem afterCalls_counter_succ (g : Generator) (n : Nat) :
    (g.afterCalls (n + 1)).counter = ((g.afterCalls n).counter + 1) % U64 := by
  simp [Generator.afterCalls, next_fst_counter]

theorem afterCalls_counter (g : Generator) (n : Nat) :
    (g.afterCalls (n + 1)).counter = (g.counter + n + 1) % U64 := by
  induction n with
  | zero => simp [Generator.afterCalls, next_fst_counter]
  | succ n ih =>
    have h2 : g.counter + (n + 1) + 1 = g.counter + n + 1 + 1 := by omega
    rw [afterCalls_counter_succ, ih, Nat.mod_add_mod, h2]

theorem nthOutput_eq (g : Generator) (n : Nat) :
    g.nthOutput n = putUint64LE ((g.counter + n + 1) % U64) ++ g.seed.drop 8 := by
  cases n with
  | zero =>
    simp [Generator.nthOutput, Generator.afterCalls, Generator.next]
  | succ n =>
    simp only [Generator.nthOutput, Generator.next, afterCalls_seed]
    rw [afterCalls_counter g n]
    have h2 : g.counter + (n + 1) + 1 = g.counter + n + 1 + 1 := by omega
    have h : ((g.counter + n + 1) % U64 + 1) % U64 = (g.counter + (n + 1) + 1) % U64 := by
      rw [Nat.mod_add_mod, h2]
    rw [h]

theorem leadVal_eq (g : Generator) (n : Nat) :
    g.leadVal n = (g.counter + n + 1) % U64 := by
  rw [Generator.leadVal, nthOutput_eq]
  rw [show (8 : Nat) = (putUint64LE ((g.counter + n + 1) % U64)).length from
    (putUint64LE_length _).symm]
  rw [List.take_left, uint64LE_putUint64LE]
  exact Nat.mod_mod_of_dvd _ dvd_rfl

/- ## Claims -/

/-- C1: for every Generator state with counter `c` and 24-byte seed `s`,
`Next` returns the 24-byte value whose first 8 bytes are the little-endian
encoding of `c+1 (mod 2^64)` and whose bytes 8..23 are `s[8..23]`, and its
only state change is advancing the counter to `c+1 (mod 2^64)`; the seed
is unchanged. -/
theorem next_spec (g : Generator) (h : g.seed.length = 24) :
    (g.next.2.length = 24
      ∧ g.next.2.take 8 = putUint64LE ((g.counter + 1) % U64)
      ∧ g.next.2.drop 8 = g.seed.drop 8)
    ∧ g.next.1.counter = (g.counter + 1) % U64
    ∧ g.next.1.seed = g.seed := by
  refine ⟨⟨?_, ?_, ?_⟩, rfl, rfl⟩
  · simp [Generator.next, putUint64LE_length, h]
  · show (putUint64LE ((g.counter + 1) % U64) ++ g.seed.drop 8).take 8 = _
    rw [show (8 : Nat) = (putUint64LE ((g.counter + 1) % U64)).length from
      (putUint64LE_length _).symm, List.take_left]
  · show (putUint64LE ((g.counter + 1) % U64) ++ g.seed.drop 8).drop 8 = _
    rw [show (8 : Nat) = (putUint64LE ((g.counter + 1) % U64)).length from
      (putUint64LE_length _).symm, List.drop_left]

/-- Witness for C1 at a concrete generator state. -/
theorem next_spec_witness :
    (List.range 24).length = 24
    ∧ ((((Generator.mk (List.range 24) 5).next.2.length = 24
        ∧ (Generator.mk (List.range 24) 5).next.2.take 8 = putUint64LE ((5 + 1) % U64)
        ∧ (Generator.mk (List.range 24) 5).next.2.drop 8 = (List.range 24).drop 8)
      ∧ (Generator.mk (List.range 24) 5).next.1.counter = (5 + 1) % U64
      ∧ (Generator.mk (List.range 24) 5).next.1.seed = List.range 24)) :=
  ⟨by decide, next_spec (Generator.mk (List.range 24) 5) (by decide)⟩

/-- C6: `Next` is total over every Generator state — it has no error path
and always returns a composed 24-byte value; at counter overflow the
counter wraps silently modulo `2^64` (from `2^64 - 1` it advances to `0`)
with no failure and no guard. -/
theorem next_total (g : Generator) (h : g.seed.length = 24) :
    g.next.2.length = 24
    ∧ g.next.1.counter = (g.counter + 1) % U64
    ∧ (g.counter = U64 - 1 → g.next.1.counter = 0) := by
  refine ⟨?_, rfl, fun hc => ?_⟩
  · simp [Generator.next, putUint64LE_length, h]
  · rw [next_fst_counter, hc]
    have h1 : U64 - 1 + 1 = U64 := by norm_num [U64]
    rw [h1, Nat.mod_self]

/-- Witness for C6 at a concrete generator state sitting at the
wraparound boundary. -/
theorem next_total_witness :
    (List.range 24).length = 24
    ∧ ((Generator.mk (List.range 24) (U64 - 1)).next.2.length = 24
      ∧ (Generator.mk (List.range 24) (U64 - 1)).next.1.counter = (U64 - 1 + 1) % U64
      ∧ (U64 - 1 = U64 - 1 → (Generator.mk (List.range 24) (U64 - 1)).next.1.counter = 0)) :=
  ⟨by decide, next_total (Generator.mk (List.range 24) (U64 - 1)) (by decide)⟩

/-- C10: whenever `NewGenerator` returns a non-nil error it returns a nil
Generator reference; no partially initialized Generator is exposed on the
failure path. -/
theorem newGenerator_error_nil (r : Except String (List Nat))
    (h : (NewGenerator r).2 ≠ none) : (NewGenerator r).1 = none := by
  cases r with
  | error e => rfl
  | ok b => simp [NewGenerator] at h

/-- Witness for C10 at a concrete failing random-source outcome. -/
theorem newGenerator_error_nil_witness :
    (NewGenerator (Except.error "entropy unavailable")).2 ≠ none
    ∧ (NewGenerator (Except.error "entropy unavailable")).1 = none :=
  ⟨by decide, newGenerator_error_nil (Except.error "entropy unavailable") (by decide)⟩

/-- C5: `NewGenerator` fails exactly when the random source fails (its
only failure mode), and on success it initializes the counter to the
little-endian value of the first 8 seed bytes and retains the full
24-byte seed. -/
theorem newGenerator_spec (r : Except String (List Nat)) :
    ((NewGenerator r).2 ≠ none ↔ ∃ e, r = .error e)
    ∧ ∀ b, r = .ok b →
        NewGenerator r = (some ⟨b, uint64LE (b.take 8)⟩, none) := by
  cases r <;> simp [NewGenerator]

/-- Witness for C5 at a concrete successful random-source outcome. -/
theorem newGenerator_spec_witness :
    NewGenerator (Except.ok (List.range 24))
      = (some ⟨List.range 24, uint64LE ((List.range 24).take 8)⟩, none) :=
  (newGenerator_spec (Except.ok (List.range 24))).2 (List.range 24) rfl

/-- C7: `MustNewGenerator` performs the same work as `NewGenerator` —
when `NewGenerator` succeeds it returns the identically-initialized
generator pointer, and when `NewGenerator` fails it panics with that
failure instead of returning a recoverable error. -/
theorem mustNewGenerator_spec (r : Except String (List Nat)) :
    ((NewGenerator r).2 = none →
      MustNewGenerator r = .returned (NewGenerator r).1)
    ∧ ∀ e, (NewGenerator r).2 = some e → MustNewGenerator r = .panicked e := by
  cases r <;> simp [NewGenerator, MustNewGenerator]

/-- Witness for C7 at a concrete successful random-source outcome. -/
theorem mustNewGenerator_spec_witness :
    MustNewGenerator (Except.ok (List.range 24))
      = .returned (NewGenerator (Except.ok (List.range 24))).1 :=
  (mustNewGenerator_spec (Except.ok (List.range 24))).1 rfl

theorem mod_ne_of_close {N a b : Nat} (hab : a ≠ b)
    (h1 : a < b + N) (h2 : b < a + N) : a % N ≠ b % N := by
  intro h
  rcases Nat.lt_or_ge a b with hlt | hge
  · have hd : N ∣ b - a := (Nat.modEq_iff_dvd' (le_of_lt hlt)).mp h
    have := Nat.le_of_dvd (by omega) hd
    omega
  · have hlt' : b < a := lt_of_le_of_ne hge (Ne.symm hab)
    have hd : N ∣ a - b := (Nat.modEq_iff_dvd' (le_of_lt hlt')).mp h.symm
    have := Nat.le_of_dvd (by omega) hd
    omega

theorem U64_pos : 0 < U64 := by norm_num [U64]

/-- C2: on one Generator, the identifiers of any two distinct `Next`
calls separated by fewer than `2^64` calls differ, and they differ
exactly in their leading 8 bytes: bytes 8..23 of any two identifiers the
Generator returns are identical. -/
theorem distinct_calls_differ (g : Generator) (i j : Nat) (hij : i ≠ j)
    (hi : i < j + U64) (hj : j < i + U64) :
    g.nthOutput i ≠ g.nthOutput j
    ∧ (g.nthOutput i).take 8 ≠ (g.nthOutput j).take 8
    ∧ (g.nthOutput i).drop 8 = (g.nthOutput j).drop 8 := by
  have hx : (g.counter + i + 1) % U64 ≠ (g.counter + j + 1) % U64 :=
    mod_ne_of_close (by omega) (by omega) (by omega)
  have hpre : (g.nthOutput i).take 8 ≠ (g.nthOutput j).take 8 := by
    rw [nthOutput_eq, nthOutput_eq]
    rw [show (8 : Nat) = (putUint64LE ((g.counter + i + 1) % U64)).length from
      (putUint64LE_length _).symm, List.take_left]
    rw [show (putUint64LE ((g.counter + i + 1) % U64)).length
        = (putUint64LE ((g.counter + j + 1) % U64)).length by
      rw [putUint64LE_length, putUint64LE_length], List.take_left]
    intro h
    exact hx (putUint64LE_inj (Nat.mod_lt _ U64_pos) (Nat.mod_lt _ U64_pos) h)
  refine ⟨fun h => hpre (congrArg (List.take 8) h), hpre, ?_⟩
  rw [nthOutput_eq, nthOutput_eq]
  rw [show (8 : Nat) = (putUint64LE ((g.counter + i + 1) % U64)).length from
    (putUint64LE_length _).symm, List.drop_left]
  rw [show (putUint64LE ((g.counter + i + 1) % U64)).length
      = (putUint64LE ((g.counter + j + 1) % U64)).length by
    rw [putUint64LE_length, putUint64LE_length], List.drop_left]

/-- Witness for C2: the first and second call on a concrete generator. -/
theorem distinct_calls_differ_witness :
    ((0 : Nat) ≠ 1 ∧ (0 : Nat) < 1 + U64 ∧ (1 : Nat) < 0 + U64)
    ∧ ((Generator.mk (List.range 24) 5).nthOutput 0
        ≠ (Generator.mk (List.range 24) 5).nthOutput 1
      ∧ ((Generator.mk (List.range 24) 5).nthOutput 0).take 8
        ≠ ((Generator.mk (List.range 24) 5).nthOutput 1).take 8
      ∧ ((Generator.mk (List.range 24) 5).nthOutput 0).drop 8
        = ((Generator.mk (List.range 24) 5).nthOutput 1).drop 8) :=
  ⟨⟨by decide, by norm_num [U64], by norm_num [U64]⟩,
    distinct_calls_differ (Generator.mk (List.range 24) 5) 0 1
      (by decide) (by norm_num [U64]) (by norm_num [U64])⟩

/-- Counterexample for C3 as stated: a generator whose counter sits just
below the wraparound boundary.  Its first call returns leading value
`2^64 - 1` and its second call returns leading value `0`, which is not an
increase by exactly 1. -/
theorem leadVal_wrap_counterexample :
    (Generator.mk (List.replicate 24 0) (U64 - 2)).leadVal 0 = U64 - 1
    ∧ (Generator.mk (List.replicate 24 0) (U64 - 2)).leadVal 1 = 0
    ∧ ¬ (Generator.mk (List.replicate 24 0) (U64 - 2)).leadVal 1
        = (Generator.mk (List.replicate 24 0) (U64 - 2)).leadVal 0 + 1 := by
  refine ⟨?_, ?_, ?_⟩ <;>
    · rw [leadVal_eq]
      try rw [leadVal_eq]
      norm_num [U64]

/-- C3 (amended): the leading-8-byte values of sequential `Next` calls,
read as little-endian 64-bit integers, advance by exactly 1 modulo `2^64`
per call; in particular they increase by exactly 1 whenever the previous
value is not `2^64 - 1` (i.e. barring counter wraparound). -/
theorem leadVal_succ (g : Generator) (n : Nat) :
    g.leadVal (n + 1) = (g.leadVal n + 1) % U64
    ∧ (g.leadVal n ≠ U64 - 1 → g.leadVal (n + 1) = g.leadVal n + 1) := by
  have hA : g.leadVal (n + 1) = (g.leadVal n + 1) % U64 := by
    rw [leadVal_eq, leadVal_eq, Nat.mod_add_mod]
    have h2 : g.counter + (n + 1) + 1 = g.counter + n + 1 + 1 := by omega
    rw [h2]
  have hlt : g.leadVal n < U64 := by
    rw [leadVal_eq]
    exact Nat.mod_lt _ U64_pos
  refine ⟨hA, fun hne => ?_⟩
  rw [hA, Nat.mod_eq_of_lt (by omega)]

/-- Witness for C3 (amended) at a concrete generator and call index. -/
theorem leadVal_succ_witness :
    (Generator.mk (List.replicate 24 0) 0).leadVal 1
      = ((Generator.mk (List.replicate 24 0) 0).leadVal 0 + 1) % U64
    ∧ ((Generator.mk (List.replicate 24 0) 0).leadVal 0 ≠ U64 - 1 →
        (Generator.mk (List.replicate 24 0) 0).leadVal 1
          = (Generator.mk (List.replicate 24 0) 0).leadVal 0 + 1) :=
  leadVal_succ (Generator.mk (List.replicate 24 0) 0) 0

/-- C4: if the random source supplies the fixed 24-byte sequence `b` at
construction, the first `Next` call returns `b` with its leading 8 bytes
replaced by the little-endian encoding of `uint64LE b[0..7] + 1`, and the
second call returns the same tail `b[8..23]` with leading 8 bytes equal
to `uint64LE b[0..7] + 2` in little-endian form. -/
theorem determinism_from_fixed_entropy (b : List Nat) (_hb : b.length = 24) :
    NewGenerator (.ok b) = (some ⟨b, uint64LE (b.take 8)⟩, none)
    ∧ (⟨b, uint64LE (b.take 8)⟩ : Generator).nthOutput 0
        = putUint64LE (uint64LE (b.take 8) + 1) ++ b.drop 8
    ∧ (⟨b, uint64LE (b.take 8)⟩ : Generator).nthOutput 1
        = putUint64LE (uint64LE (b.take 8) + 2) ++ b.drop 8 := by
  refine ⟨rfl, ?_, ?_⟩
  · rw [nthOutput_eq, putUint64LE_mod]
  · rw [nthOutput_eq, putUint64LE_mod]

/-- Witness for C4 at the repository test's fixed byte sequence
`01 02 ... 18`. -/
theorem determinism_from_fixed_entropy_witness :
    ((List.range 24).map (fun i => i + 1)).length = 24
    ∧ (NewGenerator (.ok ((List.range 24).map (fun i => i + 1)))
        = (some ⟨(List.range 24).map (fun i => i + 1),
            uint64LE (((List.range 24).map (fun i => i + 1)).take 8)⟩, none)
      ∧ (⟨(List.range 24).map (fun i => i + 1),
            uint64LE (((List.range 24).map (fun i => i + 1)).take 8)⟩
            : Generator).nthOutput 0
          = putUint64LE (uint64LE (((List.range 24).map (fun i => i + 1)).take 8) + 1)
            ++ ((List.range 24).map (fun i => i + 1)).drop 8
      ∧ (⟨(List.range 24).map (fun i => i + 1),
            uint64LE (((List.range 24).map (fun i => i + 1)).take 8)⟩
            : Generator).nthOutput 1
          = putUint64LE (uint64LE (((List.range 24).map (fun i => i + 1)).take 8) + 2)
            ++ ((List.range 24).map (fun i => i + 1)).drop 8) :=
  ⟨by decide,
    determinism_from_fixed_entropy ((List.range 24).map (fun i => i + 1)) (by decide)⟩

theorem byteAt_congr_of_take {u v : List Nat} (h : u.take 16 = v.take 16) :
    ∀ i, i < 16 → byteAt u i = byteAt v i := by
  intro i hi
  have h2 := congrArg (fun l => l[i]?) h
  simp only [List.getElem?_take_of_lt hi] at h2
  rw [byteAt, byteAt, List.getD_eq_getElem?_getD, List.getD_eq_getElem?_getD, h2]

/-- The modelled validator agrees with every entry of the repository's
`validHex128Tests` table. -/
theorem validHex128_testVectors :
    ValidHex128 "01020304-0506-0708-090a-0b0c0d0e0f10" = true
    ∧ ValidHex128 "01020304-0506-0708-090a-0b0c0d0e0f1" = false
    ∧ ValidHex128 "0102030430506-0708-090a-0b0c0d0e0f1" = false
    ∧ ValidHex128 "01020304-050630708-090a-0b0c0d0e0f1" = false
    ∧ ValidHex128 "01020304-0506-07084090a-0b0c0d0e0f1" = false
    ∧ ValidHex128 "01020304-0506-0708-090a50b0c0d0e0f1" = false
    ∧ ValidHex128 "01020304-0506-0708-090a-0b0c0d0e0f102" = false
    ∧ ValidHex128 "01020304-0506-0708-090a-0b0c0d0e0f1/" = false := by
  decide

/-- C8: `ValidHex128 s` is true if and only if `s` is exactly 36
characters with literal hyphens at exactly the four separator positions
8, 13, 18, 23 of the 8-4-4-4-12 grouping and every other character a
lowercase hex digit `0`–`9` (codes 48–57) or `a`–`f` (codes 97–102);
any other length, separator placement or character class is rejected. -/
theorem validHex128_spec (s : String) :
    ValidHex128 s = true ↔
      (s.length = 36 ∧ ∀ i, i < 36 →
        ((i = 8 ∨ i = 13 ∨ i = 18 ∨ i = 23) → s.data.getD i ' ' = '-')
        ∧ (¬(i = 8 ∨ i = 13 ∨ i = 18 ∨ i = 23) →
            ((48 ≤ (s.data.getD i ' ').toNat ∧ (s.data.getD i ' ').toNat ≤ 57)
              ∨ (97 ≤ (s.data.getD i ' ').toNat ∧ (s.data.getD i ' ').toNat ≤ 102)))) := by
  rw [ValidHex128]
  simp only [Bool.and_eq_true, beq_iff_eq, List.all_eq_true, List.mem_range,
    String.length]
  constructor
  · rintro ⟨h1, h2⟩
    refine ⟨h1, fun i hi => ⟨fun hc => ?_, fun hc => ?_⟩⟩
    · have h3 := h2 i hi
      rw [if_pos (by simp only [Bool.or_eq_true, beq_iff_eq]; tauto)] at h3
      simpa using h3
    · have h3 := h2 i hi
      rw [if_neg (by simp only [Bool.or_eq_true, beq_iff_eq]; tauto)] at h3
      simpa [isLowerHexDigit] using h3
  · rintro ⟨h1, h2⟩
    refine ⟨h1, fun i hi => ?_⟩
    by_cases hc : i = 8 ∨ i = 13 ∨ i = 18 ∨ i = 23
    · rw [if_pos (by simp only [Bool.or_eq_true, beq_iff_eq]; tauto)]
      simpa using (h2 i hi).1 hc
    · rw [if_neg (by simp only [Bool.or_eq_true, beq_iff_eq]; tauto)]
      simpa [isLowerHexDigit] using (h2 i hi).2 hc

/-- Witness for C8: the characterization evaluated at the canonical
valid string of the repository's test table. -/
theorem validHex128_spec_witness :
    ValidHex128 "01020304-0506-0708-090a-0b0c0d0e0f10" = true :=
  (validHex128_spec "01020304-0506-0708-090a-0b0c0d0e0f10").mpr (by decide)

/-- C9: `Hex128` on an identifier with first 16 bytes
`01 02 ... 10` returns exactly `"01020304-0506-4a08-8907-0b0c0d0e0f10"`;
for every input the output is 36 characters with the constant marker
nibbles `4` and `8` at the conventional version/variant positions
(indices 14 and 19), and the output depends only on the first 16 bytes
of the input. -/
theorem hex128_spec :
    Hex128 ((List.range 16).map (fun i => i + 1) ++ List.replicate 8 0)
      = "01020304-0506-4a08-8907-0b0c0d0e0f10"
    ∧ (∀ u : List Nat, (Hex128 u).length = 36
        ∧ (Hex128 u).data.getD 14 ' ' = '4'
        ∧ (Hex128 u).data.getD 19 ' ' = '8')
    ∧ ∀ u v : List Nat, u.take 16 = v.take 16 → Hex128 u = Hex128 v := by
  refine ⟨by decide, fun u => ⟨?_, ?_, ?_⟩, fun u v h => ?_⟩
  · simp [Hex128, byteHex]
  · simp [Hex128, byteHex, List.getD_eq_getElem?_getD]
  · simp [Hex128, byteHex, List.getD_eq_getElem?_getD]
  · have k := byteAt_congr_of_take h
    simp only [Hex128]
    rw [k 0 (by norm_num), k 1 (by norm_num), k 2 (by norm_num), k 3 (by norm_num),
      k 4 (by norm_num), k 5 (by norm_num), k 6 (by norm_num), k 7 (by norm_num),
      k 8 (by norm_num), k 9 (by norm_num), k 10 (by norm_num), k 11 (by norm_num),
      k 12 (by norm_num), k 13 (by norm_num), k 14 (by norm_num), k 15 (by norm_num)]

/-- Witness for C9: a 24-byte identifier and its 16-byte truncation pad
to the same first 16 bytes, so they render identically. -/
theorem hex128_spec_witness :
    Hex128 ((List.range 24).map (fun i => i + 1))
      = Hex128 ((List.range 16).map (fun i => i + 1) ++ List.replicate 8 0) :=
  hex128_spec.2.2 ((List.range 24).map (fun i => i + 1))
    ((List.range 16).map (fun i => i + 1) ++ List.replicate 8 0) (by decide)

end Fastuuid
